import Mathlib

/-!
Verification of the Controle_Financeiro ledger core.

This file shallowly embeds the ledger reconciliation engine of the
repository (finance/signals.py, finance/views.py) in Lean 4 and settles
the frozen claims about it.

Modelling conventions:
* Python `Decimal` values are embedded as `ℚ` (exact rational arithmetic).
  All decimal operations the code performs (addition, subtraction,
  multiplication, division, `quantize(Decimal('0.01'), ROUND_HALF_UP)`)
  are modelled exactly; the only divergence is that Python `Decimal`
  division rounds the quotient to 28 significant digits before the
  2-decimal quantization, which cannot change the quantized result for
  the magnitudes the ledger handles.
* `datetime.date` is embedded as a `Date` structure of numerals;
  `calendar.monthrange(y, m)[1]` is `daysInMonth` with the Gregorian
  leap-year rule.
* The Django ORM is embedded as explicit state: the `Transaction` table
  is a list of `Entry`, the `Account` table is an association list from
  account id to balance, and the `CreditCardRefund` table is a list of
  `Refund`.  `Model.save()` on an existing row is `dbSave`, which runs
  exactly the `pre_save`/`post_save` signal pair of finance/signals.py;
  `Model.objects.create(...)` is `createEntry` (the `created = True`
  branch of `post_save`); `delete()` is `deleteEntry` (`pre_delete`).
-/

/-- A calendar date, embedding Python `datetime.date`. -/
structure Date where
  year : ℕ
  month : ℕ
  day : ℕ
deriving DecidableEq, Repr

/-- Gregorian leap-year rule, as used by Python's `calendar` module. -/
def isLeapYear (y : ℕ) : Bool :=
  y % 4 = 0 && (y % 100 ≠ 0 || y % 400 = 0)

/-- `calendar.monthrange(y, m)[1]`: number of days in month `m` of year `y`. -/
def daysInMonth (y : ℕ) (m : ℕ) : ℕ :=
  if m = 2 then (if isLeapYear y then 29 else 28)
  else if m = 4 ∨ m = 6 ∨ m = 9 ∨ m = 11 then 30
  else 31

/-- finance/views.py `add_months(d, months)`: add `months` months to `d`,
clamping the day to the last day of the target month. -/
def add_months (d : Date) (months : ℕ) : Date :=
  let month0 := d.month - 1 + months
  let year := d.year + month0 / 12
  let month := month0 % 12 + 1
  let day := min d.day (daysInMonth year month)
  ⟨year, month, day⟩

/-- Modelled from the spec's words for the installment generator's date rule:
"`entryDate` of parcel *i* = `startDate` advanced by *i* months, with
end-of-month clamping".  The target month is the one reached by counting
`k` months forward from the start month; the day is clamped to that
month's length. -/
def specAdvanceMonths (d : Date) (k : ℕ) : Date :=
  let total := d.year * 12 + (d.month - 1) + k
  let y := total / 12
  let m := total % 12 + 1
  ⟨y, m, min d.day (daysInMonth y m)⟩

/-- finance/views.py `calculate_invoice_due_date`: map a transaction date
together with a card's closing day and due day to the invoice due date. -/
def calculate_invoice_due_date (transaction_date : Date) (closing_day due_day : ℕ) : Date :=
  let year := transaction_date.year
  let month := transaction_date.month
  -- Passo 1: Identificar o mês em que a fatura fecha
  let (closing_year, closing_month) :=
    if transaction_date.day ≤ closing_day then
      (year, month)
    else
      let cm := month + 1
      if cm > 12 then (year + 1, 1) else (year, cm)
  -- Passo 2: Calcular a data de vencimento
  let (due_year, due_month) :=
    if due_day ≥ closing_day then
      (closing_year, closing_month)
    else
      let dm := closing_month + 1
      if dm > 12 then (closing_year + 1, 1) else (closing_year, dm)
  -- Ajusta o dia de vencimento para o último dia do mês se necessário
  let max_day := daysInMonth due_year due_month
  ⟨due_year, due_month, min due_day max_day⟩

/-- Modelled from the spec's words for the invoice cycle calculator:
step 1 picks the closing month (same month iff `day ≤ closingDay`, else
the next month with December→January rollover), step 2 picks the due
month (closing month iff `dueDay ≥ closingDay`, else the month after,
with rollover), step 3 clamps the day to
`min(dueDay, lastDayOfDueMonth)`. -/
def specDueDate (d : Date) (closingDay dueDay : ℕ) : Date :=
  let nextMonth : ℕ × ℕ → ℕ × ℕ := fun ym =>
    if ym.2 = 12 then (ym.1 + 1, 1) else (ym.1, ym.2 + 1)
  let closing := if d.day ≤ closingDay then (d.year, d.month) else nextMonth (d.year, d.month)
  let due := if dueDay ≥ closingDay then closing else nextMonth closing
  ⟨due.1, due.2, min dueDay (daysInMonth due.1 due.2)⟩

/-- Python `Decimal.quantize(Decimal('0.01'), rounding=ROUND_HALF_UP)`:
round to 2 decimal places, ties away from zero. -/
def roundHalfUp2 (q : ℚ) : ℚ :=
  if q < 0 then -(((⌊-q * 100 + 1/2⌋ : ℤ) : ℚ) / 100)
  else ((⌊q * 100 + 1/2⌋ : ℤ) : ℚ) / 100

/-- The amount list built by the installment branch of `transactions_view`
in "total" mode: `base_parcela = (amount / installments).quantize(0.01,
ROUND_HALF_UP)`, `valores = [base_parcela] * installments`, then the
remainder `amount - sum(valores)` is added to the last element. -/
def splitTotalAmounts (amount : ℚ) (installments : ℕ) : List ℚ :=
  let base_parcela := roundHalfUp2 (amount / installments)
  let valores := List.replicate installments base_parcela
  let diferenca := amount - valores.sum
  valores.dropLast ++ [base_parcela + diferenca]

/-- The amount list in "installment" mode (`amount_type = 'installment'`):
every parcel carries the entered amount unchanged. -/
def splitInstallmentAmounts (amount : ℚ) (installments : ℕ) : List ℚ :=
  List.replicate installments amount

/-- The (amount, entry date) pairs produced by one `transactions_view`
POST, after the `installments < 1` clamp: the installment branch runs
when the installment flag is set and the clamped count exceeds 1,
otherwise a single entry carries the full amount at the start date.
`totalMode = true` is `amount_type = 'total'` (the default). -/
def createParcels (amount : ℚ) (installmentsRaw : ℤ) (isInstallment : Bool)
    (totalMode : Bool) (t_date : Date) : List (ℚ × Date) :=
  let installments := (max installmentsRaw 1).toNat
  if isInstallment ∧ installments > 1 then
    let valores := if totalMode then splitTotalAmounts amount installments
      else splitInstallmentAmounts amount installments
    (List.range installments).zip valores |>.map fun p => (p.2, add_months t_date p.1)
  else
    [(amount, t_date)]

/-- `Transaction.type`: `TYPE_INCOME` (`'IN'`) or `TYPE_EXPENSE` (`'EX'`). -/
inductive TType where
  | income
  | expense
deriving DecidableEq, Repr

/-- One row of the `Transaction` table (the fields the ledger engine reads). -/
structure Entry where
  id : ℕ
  account : ℕ
  credit_card : Option ℕ
  amount : ℚ
  type : TType
  date : Date
  payment_date : Date
  is_paid : Bool
  description : String
deriving DecidableEq, Repr

/-- One row of the `CreditCardRefund` table. -/
structure Refund where
  credit_card : ℕ
  amount : ℚ
  invoice_year : ℕ
  invoice_month : ℕ
deriving DecidableEq, Repr

/-- A `CreditCard` row: id plus billing-cycle parameters. -/
structure Card where
  id : ℕ
  closing_day : ℕ
  due_day : ℕ
deriving DecidableEq, Repr

/-- The `Account` table: association list from account id to balance. -/
abbrev Accounts := List (ℕ × ℚ)

/-- `Account.objects.filter(id=a).update(balance=F('balance') + q)`:
add `q` to the balance of the row with id `a` (no-op if absent). -/
def bumpAccount (accounts : Accounts) (a : ℕ) (q : ℚ) : Accounts :=
  accounts.map fun p => if p.1 = a then (p.1, p.2 + q) else p

/-- The persistent state the ledger engine acts on. -/
structure LedgerState where
  entries : List Entry
  accounts : Accounts
  refunds : List Refund
deriving DecidableEq, Repr

/-- finance/signals.py `update_account_balance`: when the transaction is
paid, add the amount for income and subtract it for expense. -/
def update_account_balance (accounts : Accounts) (account : ℕ) (amount : ℚ)
    (ttype : TType) (is_paid : Bool) : Accounts :=
  if !is_paid then accounts
  else match ttype with
    | .income => bumpAccount accounts account amount
    | .expense => bumpAccount accounts account (-amount)

/-- finance/signals.py `revert_account_balance`: the inverse adjustment. -/
def revert_account_balance (accounts : Accounts) (account : ℕ) (amount : ℚ)
    (ttype : TType) (is_paid : Bool) : Accounts :=
  if !is_paid then accounts
  else match ttype with
    | .income => bumpAccount accounts account (-amount)
    | .expense => bumpAccount accounts account amount

/-- finance/signals.py `transaction_pre_save`, balance part: when some of
is_paid/account/amount/type changed and the old row was paid, revert the
old row's effect.  When nothing relevant changed, nothing is reverted. -/
def transaction_pre_save (accounts : Accounts) (old inst : Entry) : Accounts :=
  let has_changes :=
    old.is_paid ≠ inst.is_paid ∨ old.account ≠ inst.account ∨
    old.amount ≠ inst.amount ∨ old.type ≠ inst.type
  if has_changes then
    if old.is_paid then
      revert_account_balance accounts old.account old.amount old.type old.is_paid
    else accounts
  else accounts

/-- finance/signals.py `transaction_post_save`, `created = False` branch:
apply the saved row's effect whenever it is paid. -/
def transaction_post_save (accounts : Accounts) (inst : Entry) : Accounts :=
  if inst.is_paid then
    update_account_balance accounts inst.account inst.amount inst.type inst.is_paid
  else accounts

/-- `instance.save()` on an existing `Transaction` row: `pre_save` fetches
the stored row with the same pk, runs the signal pair on the balances,
and the row is replaced by the new instance.  (Every caller in views.py
saves a row it has just fetched, so the pk is always present.) -/
def dbSave (st : LedgerState) (inst : Entry) : LedgerState :=
  match st.entries.find? (fun e => e.id = inst.id) with
  | none => st
  | some old =>
      { st with
        entries := st.entries.map fun e => if e.id = inst.id then inst else e
        accounts := transaction_post_save (transaction_pre_save st.accounts old inst) inst }

/-- `Transaction.objects.create(...)`: append the row and run the
`created = True` branch of `post_save`. -/
def createEntry (st : LedgerState) (e : Entry) : LedgerState :=
  { st with
    entries := st.entries ++ [e]
    accounts := if e.is_paid then
        update_account_balance st.accounts e.account e.amount e.type e.is_paid
      else st.accounts }

/-- `transaction.delete()`: `pre_delete` reverts the effect when the row
was paid, then the row is removed. -/
def deleteEntry (st : LedgerState) (id : ℕ) : LedgerState :=
  match st.entries.find? (fun e => e.id = id) with
  | none => st
  | some old =>
      { st with
        entries := st.entries.filter fun e => e.id ≠ id
        accounts := if old.is_paid then
            revert_account_balance st.accounts old.account old.amount old.type old.is_paid
          else st.accounts }

/-- The invoice-period filter of `pay_credit_card_invoice_view` and
`reopen_credit_card_invoice_view`: expense entries of the card whose
`payment_date` falls in the given year and month. -/
def matchesInvoice (card y m : ℕ) (e : Entry) : Bool :=
  e.credit_card = some card && e.payment_date.year = y &&
    e.payment_date.month = m && e.type = TType.expense

/-- Sum of `CreditCardRefund.amount` for the card and invoice period. -/
def refundsTotalFor (refunds : List Refund) (card y m : ℕ) : ℚ :=
  ((refunds.filter fun r =>
    r.credit_card = card && r.invoice_year = y && r.invoice_month = m).map Refund.amount).sum

/-- Insert into an association list keeping first-occurrence order
(Python `defaultdict` keyed by account, iterated in insertion order). -/
def addTotal : List (ℕ × ℚ) → ℕ → ℚ → List (ℕ × ℚ)
  | [], a, q => [(a, q)]
  | p :: rest, a, q =>
      if p.1 = a then (p.1, p.2 + q) :: rest else p :: addTotal rest a q

/-- `account_totals` of the pay/reopen views: per-account sum of the
selected entries' amounts. -/
def accountTotals (txs : List Entry) : List (ℕ × ℚ) :=
  txs.foldl (fun acc e => addTotal acc e.account e.amount) []

/-- Outcome notice of the pay/reopen views: `noPending` is the
"nothing to pay / nothing to reopen" informational message. -/
inductive InvoiceNotice where
  | noPending
  | paid
  | reopened
deriving DecidableEq, Repr

/-- State together with the reported notice. -/
structure InvoiceResult where
  state : LedgerState
  notice : InvoiceNotice
deriving DecidableEq, Repr

/-- finance/views.py `pay_credit_card_invoice_view`, POST branch: select
the unpaid expense entries of the invoice period; if none, report and
change nothing; otherwise save each with `is_paid = True` (running the
signals) and then add each involved account's proportional share of the
period's refunds to its balance. -/
def payInvoice (st : LedgerState) (card y m : ℕ) : InvoiceResult :=
  let transactions := st.entries.filter fun e => matchesInvoice card y m e && !e.is_paid
  if transactions.isEmpty then ⟨st, .noPending⟩
  else
    let transactions_total := (transactions.map Entry.amount).sum
    let refunds_total := refundsTotalFor st.refunds card y m
    let account_totals := accountTotals transactions
    let st1 := transactions.foldl (fun s t => dbSave s { t with is_paid := true }) st
    let accounts2 :=
      if 0 < refunds_total ∧ ¬account_totals.isEmpty then
        account_totals.foldl (fun acc p =>
          if 0 < transactions_total then
            bumpAccount acc p.1 (refunds_total * (p.2 / transactions_total))
          else acc) st1.accounts
      else st1.accounts
    ⟨{ st1 with accounts := accounts2 }, .paid⟩

/-- finance/views.py `reopen_credit_card_invoice_view`, POST branch: the
mirror image of `payInvoice` over the paid entries of the period, with
the proportional refund shares subtracted back. -/
def reopenInvoice (st : LedgerState) (card y m : ℕ) : InvoiceResult :=
  let transactions := st.entries.filter fun e => matchesInvoice card y m e && e.is_paid
  if transactions.isEmpty then ⟨st, .noPending⟩
  else
    let transactions_total := (transactions.map Entry.amount).sum
    let refunds_total := refundsTotalFor st.refunds card y m
    let account_totals := accountTotals transactions
    let st1 := transactions.foldl (fun s t => dbSave s { t with is_paid := false }) st
    let accounts2 :=
      if 0 < refunds_total ∧ ¬account_totals.isEmpty then
        account_totals.foldl (fun acc p =>
          if 0 < transactions_total then
            bumpAccount acc p.1 (-(refunds_total * (p.2 / transactions_total)))
          else acc) st1.accounts
      else st1.accounts
    ⟨{ st1 with accounts := accounts2 }, .reopened⟩

/-- The entries built by one `transactions_view` POST (installment branch
or single branch): amounts and entry dates come from `createParcels`;
`payment_date` is the invoice due date when a card is attached, else the
entry date itself; `is_paid` is true exactly when no card is attached.
(The per-parcel description suffix is presentation text and is kept as
the plain description here.) -/
def newEntriesFor (nextId : ℕ) (amount : ℚ) (installmentsRaw : ℤ)
    (isInstallment : Bool) (totalMode : Bool) (ty : TType) (account : ℕ)
    (card : Option Card) (t_date : Date) (desc : String) : List Entry :=
  let parcels := createParcels amount installmentsRaw isInstallment totalMode t_date
  ((List.range parcels.length).zip parcels).map fun p =>
    { id := nextId + p.1
      account := account
      credit_card := card.map Card.id
      amount := p.2.1
      type := ty
      date := p.2.2
      payment_date :=
        match card with
        | some c => calculate_invoice_due_date p.2.2 c.closing_day c.due_day
        | none => p.2.2
      is_paid := card.isNone
      description := desc }

/-- Creation flow of `transactions_view` after validation: create each
entry through the ORM (each firing the `created` branch of the signals). -/
def transactionsViewCreate (st : LedgerState) (nextId : ℕ) (amount : ℚ)
    (installmentsRaw : ℤ) (isInstallment : Bool) (totalMode : Bool)
    (ty : TType) (account : ℕ) (card : Option Card) (t_date : Date)
    (desc : String) : LedgerState :=
  (newEntriesFor nextId amount installmentsRaw isInstallment totalMode ty
    account card t_date desc).foldl createEntry st

/-- Outcome of a `transactions_view` POST. -/
inductive CreateOutcome where
  | invalidAmount
  | created (state : LedgerState)
deriving DecidableEq, Repr

/-- The amount-validation stage of `transactions_view` followed by the
creation flow: `Decimal(amount_str)` either fails to parse — modelled as
`none` — producing the "Valor inválido." rejection with no state change,
or yields a rational, which is accepted as-is (the view performs no sign
or range check on the amount) and the entries are created. -/
def transactionsViewPost (st : LedgerState) (amountParse : Option ℚ)
    (nextId : ℕ) (installmentsRaw : ℤ) (isInstallment : Bool)
    (totalMode : Bool) (ty : TType) (account : ℕ) (card : Option Card)
    (t_date : Date) (desc : String) : CreateOutcome :=
  match amountParse with
  | none => .invalidAmount
  | some amount =>
      .created (transactionsViewCreate st nextId amount installmentsRaw
        isInstallment totalMode ty account card t_date desc)

/-- Balance of account `a` in the state (read-only view). -/
def lookupBalance (st : LedgerState) (a : ℕ) : Option ℚ :=
  st.accounts.lookup a

/-- Signed sum of the currently settled entries referencing account `a`:
`+amount` for income, `-amount` for expense. -/
def signedSettledSum (entries : List Entry) (a : ℕ) : ℚ :=
  ((entries.filter fun e => e.account = a && e.is_paid).map fun e =>
    match e.type with
    | .income => e.amount
    | .expense => -e.amount).sum

/-- Per-account sum of amounts in a list of entries. -/
def sumFor (txs : List Entry) (a : ℕ) : ℚ :=
  ((txs.filter fun e => e.account = a).map Entry.amount).sum

/-- Apply a per-account balance delta to the account table. -/
def applyDelta (δ : ℕ → ℚ) (accounts : Accounts) : Accounts :=
  accounts.map fun p => (p.1, p.2 + δ p.1)

/-- The queryset of `pay_credit_card_invoice_view`: unpaid expense
entries of the invoice period. -/
def paySelection (st : LedgerState) (card y m : ℕ) : List Entry :=
  st.entries.filter fun e => matchesInvoice card y m e && !e.is_paid

/-- The queryset of `reopen_credit_card_invoice_view`: paid expense
entries of the invoice period. -/
def reopenSelection (st : LedgerState) (card y m : ℕ) : List Entry :=
  st.entries.filter fun e => matchesInvoice card y m e && e.is_paid

/-! ### Date lemmas -/

theorem add_months_eq_specAdvanceMonths (d : Date) (k : ℕ) :
    add_months d k = specAdvanceMonths d k := by
  simp only [add_months, specAdvanceMonths, Date.mk.injEq]
  have hy : d.year + (d.month - 1 + k) / 12 = (d.year * 12 + (d.month - 1) + k) / 12 := by
    omega
  have hm : (d.month - 1 + k) % 12 + 1 = (d.year * 12 + (d.month - 1) + k) % 12 + 1 := by
    omega
  exact ⟨hy, hm, by rw [hy, hm]⟩

theorem add_months_zero (d : Date) (hm1 : 1 ≤ d.month) (hm2 : d.month ≤ 12)
    (hd : d.day ≤ daysInMonth d.year d.month) : add_months d 0 = d := by
  obtain ⟨y, mo, da⟩ := d
  simp only [add_months, Date.mk.injEq]
  simp only at hm1 hm2 hd
  have h1 : mo - 1 + 0 = mo - 1 := by omega
  have h2 : (mo - 1) / 12 = 0 := by omega
  have h3 : (mo - 1) % 12 + 1 = mo := by omega
  rw [h1, h2, h3]
  simp only [Nat.add_zero]
  exact ⟨trivial, trivial, by omega⟩

/-- C2: for every transaction date and closing/due day in 1..31, the code's
invoice due date agrees with the spec's three-step description: closing
month by the inclusive `day ≤ closingDay` test with December→January
rollover, due month by the `dueDay ≥ closingDay` test with rollover, and
day clamped to `min(dueDay, lastDayOfDueMonth)`. -/
theorem invoice_due_date_matches_spec (y m d cd dd : ℕ)
    (hm1 : 1 ≤ m) (hm2 : m ≤ 12) (hcd1 : 1 ≤ cd) (hcd2 : cd ≤ 31)
    (hdd1 : 1 ≤ dd) (hdd2 : dd ≤ 31) :
    calculate_invoice_due_date ⟨y, m, d⟩ cd dd = specDueDate ⟨y, m, d⟩ cd dd := by
  simp only [calculate_invoice_due_date, specDueDate]
  rcases le_or_lt d cd with h1 | h1 <;>
    rcases le_or_lt cd dd with h2 | h2 <;>
    simp only [h1, h2, if_pos, if_neg, not_le, Nat.not_le_of_lt, ge_iff_le]
  all_goals (interval_cases m <;> simp)

/-- Witness for the invoice due-date theorem at the spec's concrete
scenario: closing day 25, due day 5, entry date 2024-03-26 gives due
date 2024-05-05. -/
theorem invoice_due_date_matches_spec_witness :
    calculate_invoice_due_date ⟨2024, 3, 26⟩ 25 5 = specDueDate ⟨2024, 3, 26⟩ 25 5 ∧
    calculate_invoice_due_date ⟨2024, 3, 26⟩ 25 5 = ⟨2024, 5, 5⟩ :=
  ⟨invoice_due_date_matches_spec 2024 3 26 25 5 (by decide) (by decide) (by decide)
    (by decide) (by decide) (by decide), by decide⟩

/-! ### Installment split lemmas -/

theorem dropLast_replicate (n : ℕ) (a : α) :
    (List.replicate n a).dropLast = List.replicate (n - 1) a := by
  cases n with
  | zero => rfl
  | succ k =>
      induction k with
      | zero => rfl
      | succ j ih => simpa [List.replicate_succ, List.dropLast] using ih

theorem splitTotalAmounts_eq (amount : ℚ) (n : ℕ) (h : 1 ≤ n) :
    splitTotalAmounts amount n =
      List.replicate (n - 1) (roundHalfUp2 (amount / n)) ++
        [amount - ((n : ℚ) - 1) * roundHalfUp2 (amount / n)] := by
  simp only [splitTotalAmounts, dropLast_replicate, List.sum_replicate, nsmul_eq_mul]
  congr 1
  simp only [List.cons.injEq, and_true]
  ring

theorem splitTotalAmounts_sum (amount : ℚ) (n : ℕ) (h : 1 ≤ n) :
    (splitTotalAmounts amount n).sum = amount := by
  rw [splitTotalAmounts_eq amount n h]
  have hc : ((n - 1 : ℕ) : ℚ) = (n : ℚ) - 1 := by
    push_cast [h]
    ring
  simp only [List.sum_append, List.sum_replicate, nsmul_eq_mul, List.sum_cons,
    List.sum_nil, hc]
  ring

/-- C3: splitting a total over `count` installments (a count below 1 is
clamped to 1) yields `count` parcels: all but the last equal the
half-up-rounded quotient, the last absorbs the remainder so the parcel
amounts sum exactly to the total, and parcel `i` is dated `i` calendar
months after the start date with end-of-month clamping. -/
theorem total_mode_split_correct (total : ℚ) (count : ℤ) (start : Date)
    (hm1 : 1 ≤ start.month) (hm2 : start.month ≤ 12)
    (hd : start.day ≤ daysInMonth start.year start.month) :
    createParcels total count true true start =
      (List.range (max count 1).toNat).map (fun i =>
        (if i + 1 = (max count 1).toNat then
            total - (((max count 1).toNat : ℚ) - 1) *
              roundHalfUp2 (total / ((max count 1).toNat : ℚ))
          else roundHalfUp2 (total / ((max count 1).toNat : ℚ)),
          add_months start i)) ∧
    ((createParcels total count true true start).map Prod.fst).sum = total ∧
    ∀ (d : Date) (k : ℕ), add_months d k = specAdvanceMonths d k := by
  have hn1 : 1 ≤ (max count 1).toNat := by omega
  set n := (max count 1).toNat with hn
  by_cases hbig : 1 < n
  · have hsplit : createParcels total count true true start =
        ((List.range n).zip (splitTotalAmounts total n)).map
          (fun p => (p.2, add_months start p.1)) := by
      simp only [createParcels, ← hn]
      rw [if_pos ⟨trivial, hbig⟩, if_pos trivial]
    have hlen : (splitTotalAmounts total n).length = n := by
      rw [splitTotalAmounts_eq total n hn1]
      simp
      omega
    have hmain : createParcels total count true true start =
        (List.range n).map (fun i =>
          (if i + 1 = n then
              total - ((n : ℚ) - 1) * roundHalfUp2 (total / (n : ℚ))
            else roundHalfUp2 (total / (n : ℚ)),
            add_months start i)) := by
      rw [hsplit, splitTotalAmounts_eq total n hn1]
      apply List.ext_getElem
      · simp
        omega
      · intro i h₁ h₂
        simp only [List.getElem_map, List.getElem_zip, List.getElem_range,
          Prod.mk.injEq]
        have hi : i < n := by
          simp at h₂
          exact h₂
        refine ⟨?_, trivial⟩
        rcases lt_or_ge i (n - 1) with hlt | hge
        · rw [List.getElem_append]
          simp only [List.length_replicate]
          rw [dif_pos hlt, List.getElem_replicate, if_neg (by omega)]
        · rw [List.getElem_append]
          simp only [List.length_replicate]
          rw [dif_neg (by omega)]
          simp only [List.getElem_singleton]
          rw [if_pos (by omega)]
    refine ⟨hmain, ?_, add_months_eq_specAdvanceMonths⟩
    rw [hsplit, List.map_map]
    have hcomp : Prod.fst ∘ (fun p : ℕ × ℚ => (p.2, add_months start p.1)) =
        Prod.snd := rfl
    rw [hcomp, List.map_snd_zip _ _ (by simp [hlen])]
    exact splitTotalAmounts_sum total n hn1
  · have hone : n = 1 := by omega
    have hsingle : createParcels total count true true start = [(total, start)] := by
      simp only [createParcels, ← hn, hone]
      norm_num
    refine ⟨?_, ?_, add_months_eq_specAdvanceMonths⟩
    · rw [hsingle, hone]
      have hr1 : List.range 1 = [0] := rfl
      rw [hr1]
      simp only [List.map_cons, List.map_nil]
      rw [add_months_zero start hm1 hm2 hd]
      norm_num
    · rw [hsingle]
      simp

/-- Witness for the installment-split theorem at the spec's concrete
scenario: Split(100.00, 3, 2024-01-31) gives parcels 33.33 on
2024-01-31, 33.33 on 2024-02-29 (leap clamp), 33.34 on 2024-03-31. -/
theorem total_mode_split_correct_witness :
    (1 ≤ (⟨2024, 1, 31⟩ : Date).month ∧ (⟨2024, 1, 31⟩ : Date).month ≤ 12 ∧
      (⟨2024, 1, 31⟩ : Date).day ≤
        daysInMonth (⟨2024, 1, 31⟩ : Date).year (⟨2024, 1, 31⟩ : Date).month) ∧
    createParcels 100 3 true true ⟨2024, 1, 31⟩ =
      [(3333/100, ⟨2024, 1, 31⟩), (3333/100, ⟨2024, 2, 29⟩), (3334/100, ⟨2024, 3, 31⟩)] := by
  refine ⟨⟨by decide, by decide, by decide⟩, ?_⟩
  rw [(total_mode_split_correct 100 3 ⟨2024, 1, 31⟩ (by decide) (by decide) (by decide)).1]
  have hn3 : ((3 : ℤ) ⊔ 1).toNat = 3 := by decide
  have hr3 : List.range 3 = [0, 1, 2] := by decide
  have hround : roundHalfUp2 (100 / ((3 : ℕ) : ℚ)) = 3333/100 := by
    norm_num [roundHalfUp2]
  simp only [hn3, hr3, List.map_cons, List.map_nil, hround]
  norm_num
  exact ⟨by decide, by decide, by decide⟩

/-- C7: every entry a `transactions_view` POST creates — single or
installment parcel — is settled (`is_paid = true`) exactly when no
credit card is attached, and unsettled when one is. -/
theorem created_entry_paid_iff_no_card (nextId : ℕ) (amount : ℚ)
    (installmentsRaw : ℤ) (isInstallment totalMode : Bool) (ty : TType)
    (account : ℕ) (card : Option Card) (t_date : Date) (desc : String) :
    ∀ e ∈ newEntriesFor nextId amount installmentsRaw isInstallment totalMode
        ty account card t_date desc,
      e.is_paid = card.isNone := by
  intro e he
  simp only [newEntriesFor, List.mem_map] at he
  obtain ⟨p, hp, rfl⟩ := he
  rfl

/-- Witness for C7: a concrete cash entry is created settled, a concrete
card entry is created unsettled. -/
theorem created_entry_paid_iff_no_card_witness :
    ((⟨1, 1, none, 10, TType.expense, ⟨2024, 1, 15⟩, ⟨2024, 1, 15⟩, true, "a"⟩ : Entry) ∈
        newEntriesFor 1 10 1 false true TType.expense 1 none ⟨2024, 1, 15⟩ "a" ∧
      Entry.is_paid ⟨1, 1, none, 10, TType.expense, ⟨2024, 1, 15⟩, ⟨2024, 1, 15⟩, true, "a"⟩ =
        (none : Option Card).isNone) ∧
    ((⟨1, 1, some 7, 10, TType.expense, ⟨2024, 1, 15⟩, ⟨2024, 2, 20⟩, false, "a"⟩ : Entry) ∈
        newEntriesFor 1 10 1 false true TType.expense 1 (some ⟨7, 10, 20⟩) ⟨2024, 1, 15⟩ "a" ∧
      Entry.is_paid ⟨1, 1, some 7, 10, TType.expense, ⟨2024, 1, 15⟩, ⟨2024, 2, 20⟩, false, "a"⟩ =
        (some (⟨7, 10, 20⟩ : Card)).isNone) :=
  ⟨⟨by decide, created_entry_paid_iff_no_card 1 10 1 false true TType.expense 1 none
      ⟨2024, 1, 15⟩ "a" _ (by decide)⟩,
    ⟨by decide, created_entry_paid_iff_no_card 1 10 1 false true TType.expense 1
      (some ⟨7, 10, 20⟩) ⟨2024, 1, 15⟩ "a" _ (by decide)⟩⟩

/-- C10: in per-installment mode with more than one installment, every
parcel's amount is exactly the entered amount, so the parcels sum to
`amount * installments`. -/
theorem installment_mode_amounts (amount : ℚ) (count : ℤ) (start : Date)
    (h : 1 < count) :
    (createParcels amount count true false start).map Prod.fst =
      List.replicate count.toNat amount ∧
    ((createParcels amount count true false start).map Prod.fst).sum =
      (count.toNat : ℚ) * amount := by
  have hmax : (max count 1).toNat = count.toNat := by omega
  have hbig : 1 < count.toNat := by omega
  have hfst : (createParcels amount count true false start).map Prod.fst =
      List.replicate count.toNat amount := by
    simp only [createParcels, hmax]
    rw [if_pos ⟨trivial, hbig⟩, if_neg (by simp)]
    rw [List.map_map]
    have hcomp : Prod.fst ∘ (fun p : ℕ × ℚ => (p.2, add_months start p.1)) =
        Prod.snd := rfl
    rw [hcomp, List.map_snd_zip]
    · rfl
    · simp [splitInstallmentAmounts]
  refine ⟨hfst, ?_⟩
  rw [hfst]
  simp [List.sum_replicate, nsmul_eq_mul]

/-- Witness for C10: three installments of 50 each. -/
theorem installment_mode_amounts_witness :
    (1 < (3 : ℤ)) ∧
    (createParcels 50 3 true false ⟨2024, 1, 15⟩).map Prod.fst =
      List.replicate (3 : ℤ).toNat 50 ∧
    ((createParcels 50 3 true false ⟨2024, 1, 15⟩).map Prod.fst).sum =
      (((3 : ℤ).toNat : ℕ) : ℚ) * 50 :=
  ⟨by decide, installment_mode_amounts 50 3 ⟨2024, 1, 15⟩ (by decide)⟩

/-- C8: paying an invoice period with no matching unsettled expense
entries, and reopening one with no matching settled expense entries,
are reported no-ops (the "nothing pending" notice): the state — every
entry and every account balance — is returned unchanged. -/
theorem invoice_noop_when_nothing_matches (st : LedgerState) (card y m : ℕ) :
    (st.entries.filter (fun e => matchesInvoice card y m e && !e.is_paid) = [] →
      payInvoice st card y m = ⟨st, InvoiceNotice.noPending⟩) ∧
    (st.entries.filter (fun e => matchesInvoice card y m e && e.is_paid) = [] →
      reopenInvoice st card y m = ⟨st, InvoiceNotice.noPending⟩) := by
  constructor <;> intro h
  · simp only [payInvoice, h]
    rfl
  · simp only [reopenInvoice, h]
    rfl

/-- Witness for C8: a fully settled period has nothing to pay; a fully
open period has nothing to reopen. -/
theorem invoice_noop_when_nothing_matches_witness :
    (List.filter (fun e => matchesInvoice 9 2024 5 e && !e.is_paid)
        (LedgerState.entries ⟨[⟨1, 1, some 9, 100, TType.expense, ⟨2024, 4, 20⟩,
          ⟨2024, 5, 10⟩, true, "a"⟩], [(1, 0)], []⟩) = [] ∧
      payInvoice ⟨[⟨1, 1, some 9, 100, TType.expense, ⟨2024, 4, 20⟩,
          ⟨2024, 5, 10⟩, true, "a"⟩], [(1, 0)], []⟩ 9 2024 5 =
        ⟨⟨[⟨1, 1, some 9, 100, TType.expense, ⟨2024, 4, 20⟩, ⟨2024, 5, 10⟩, true, "a"⟩],
          [(1, 0)], []⟩, InvoiceNotice.noPending⟩) ∧
    (List.filter (fun e => matchesInvoice 9 2024 5 e && e.is_paid)
        (LedgerState.entries ⟨[⟨2, 1, some 9, 100, TType.expense, ⟨2024, 4, 20⟩,
          ⟨2024, 5, 10⟩, false, "b"⟩], [(1, 0)], []⟩) = [] ∧
      reopenInvoice ⟨[⟨2, 1, some 9, 100, TType.expense, ⟨2024, 4, 20⟩,
          ⟨2024, 5, 10⟩, false, "b"⟩], [(1, 0)], []⟩ 9 2024 5 =
        ⟨⟨[⟨2, 1, some 9, 100, TType.expense, ⟨2024, 4, 20⟩, ⟨2024, 5, 10⟩, false, "b"⟩],
          [(1, 0)], []⟩, InvoiceNotice.noPending⟩) :=
  ⟨⟨by decide,
      (invoice_noop_when_nothing_matches _ 9 2024 5).1 (by decide)⟩,
    ⟨by decide,
      (invoice_noop_when_nothing_matches _ 9 2024 5).2 (by decide)⟩⟩

/-- C1 (code bug): after creating a settled cash expense of 200 on
account 1 and then saving it again with only the description changed,
the stored balance is -400 while the signed sum of settled entries
referencing the account is -200: the balance invariant fails, because
`transaction_pre_save` skips the reversal when none of is_paid, account,
amount, type changed, yet `transaction_post_save` re-applies the effect
of the paid row on every save. -/
theorem noop_edit_breaks_balance_invariant :
    let e : Entry := ⟨1, 1, none, 200, TType.expense, ⟨2024, 3, 10⟩,
      ⟨2024, 3, 10⟩, true, "mercado"⟩
    let st1 := createEntry ⟨[], [(1, 0)], []⟩ e
    let st2 := dbSave st1 ⟨1, 1, none, 200, TType.expense, ⟨2024, 3, 10⟩,
      ⟨2024, 3, 10⟩, true, "mercado editado"⟩
    lookupBalance st1 1 = some (-200) ∧
    signedSettledSum st1.entries 1 = -200 ∧
    lookupBalance st2 1 = some (-400) ∧
    signedSettledSum st2.entries 1 = -200 ∧
    lookupBalance st2 1 ≠ some (signedSettledSum st2.entries 1) := by
  simp only [createEntry, dbSave, transaction_pre_save, transaction_post_save,
    update_account_balance, revert_account_balance, bumpAccount, lookupBalance,
    signedSettledSum, List.find?, List.filter, List.map, List.lookup]
  norm_num

/-- C4 (code bug): editing a settled entry while changing none of the
settled flag, account, amount and kind — here only the description —
does change the account balance: the save re-applies the -200 expense,
moving account 1 from 1000 to 800. -/
theorem desc_only_edit_changes_balance :
    let e : Entry := ⟨1, 1, none, 200, TType.expense, ⟨2024, 3, 10⟩,
      ⟨2024, 3, 10⟩, true, "luz"⟩
    let st : LedgerState := ⟨[e], [(1, 1000)], []⟩
    let st2 := dbSave st ⟨1, 1, none, 200, TType.expense, ⟨2024, 3, 10⟩,
      ⟨2024, 3, 10⟩, true, "luz março"⟩
    lookupBalance st 1 = some 1000 ∧
    lookupBalance st2 1 = some 800 ∧
    lookupBalance st2 1 ≠ lookupBalance st 1 := by
  simp only [dbSave, transaction_pre_save, transaction_post_save,
    update_account_balance, revert_account_balance, bumpAccount, lookupBalance,
    List.find?, List.map, List.lookup]
  norm_num

/-! ### Creation-flow lemmas -/

theorem createEntry_entries_length (st : LedgerState) (e : Entry) :
    (createEntry st e).entries.length = st.entries.length + 1 := by
  simp [createEntry]

theorem foldl_createEntry_length (l : List Entry) (st : LedgerState) :
    (l.foldl createEntry st).entries.length = st.entries.length + l.length := by
  induction l generalizing st with
  | nil => simp
  | cons x xs ih =>
      simp only [List.foldl_cons, ih, createEntry_entries_length, List.length_cons]
      omega

theorem newEntriesFor_length (nextId : ℕ) (amount : ℚ) (installmentsRaw : ℤ)
    (isInstallment totalMode : Bool) (ty : TType) (account : ℕ)
    (card : Option Card) (t_date : Date) (desc : String) :
    (newEntriesFor nextId amount installmentsRaw isInstallment totalMode ty
      account card t_date desc).length =
      (createParcels amount installmentsRaw isInstallment totalMode t_date).length := by
  simp [newEntriesFor]

/-- C9 (amended): the create view rejects an amount string that fails to
parse as a decimal — "Valor inválido.", no state change — but performs
no sign check: a parseable non-positive amount is accepted and the
entries are created exactly as for a positive amount. -/
theorem unparsable_amount_rejected_nonpositive_accepted
    (st : LedgerState) (q : ℚ) (hq : q ≤ 0) (nextId : ℕ) (installmentsRaw : ℤ)
    (isInstallment totalMode : Bool) (ty : TType) (account : ℕ)
    (card : Option Card) (t_date : Date) (desc : String) :
    transactionsViewPost st none nextId installmentsRaw isInstallment totalMode
      ty account card t_date desc = CreateOutcome.invalidAmount ∧
    transactionsViewPost st (some q) nextId installmentsRaw isInstallment
      totalMode ty account card t_date desc =
      CreateOutcome.created (transactionsViewCreate st nextId q installmentsRaw
        isInstallment totalMode ty account card t_date desc) ∧
    (transactionsViewCreate st nextId q installmentsRaw isInstallment totalMode
      ty account card t_date desc).entries.length =
      st.entries.length +
        (createParcels q installmentsRaw isInstallment totalMode t_date).length := by
  refine ⟨rfl, rfl, ?_⟩
  rw [transactionsViewCreate, foldl_createEntry_length, newEntriesFor_length]

/-- Counterexample to C9 as stated: a create request with the negative
amount -5 is not rejected — it creates an entry and moves account 1's
balance from 0 to 5. -/
theorem negative_amount_creates_entry :
    (-5 : ℚ) ≤ 0 ∧
    transactionsViewPost ⟨[], [(1, 0)], []⟩ (some (-5)) 1 1 false true
        TType.expense 1 none ⟨2024, 1, 10⟩ "estorno" =
      CreateOutcome.created ⟨[⟨1, 1, none, -5, TType.expense, ⟨2024, 1, 10⟩,
        ⟨2024, 1, 10⟩, true, "estorno"⟩], [(1, 5)], []⟩ := by
  refine ⟨by norm_num, ?_⟩
  simp only [transactionsViewPost, transactionsViewCreate, newEntriesFor,
    createParcels, createEntry, update_account_balance, bumpAccount]
  have hcond : ¬(false = true ∧ ((1:ℤ) ⊔ 1).toNat > 1) := by decide
  simp only [if_neg hcond]
  have hr : List.range ([((-5 : ℚ), (⟨2024, 1, 10⟩ : Date))]).length = [0] := by decide
  simp only [hr, List.zip_cons_cons, List.zip_nil_right, List.map_cons, List.map_nil,
    List.foldl_cons, List.foldl_nil]
  simp only [createEntry, update_account_balance, bumpAccount, List.map_cons,
    List.map_nil, List.nil_append]
  norm_num

/-- Witness for the amended C9 theorem at amount -5. -/
theorem unparsable_amount_rejected_nonpositive_accepted_witness :
    ((-5 : ℚ) ≤ 0) ∧
    transactionsViewPost ⟨[], [(1, 0)], []⟩ none 1 1 false true TType.expense 1
      none ⟨2024, 1, 10⟩ "x" = CreateOutcome.invalidAmount ∧
    transactionsViewPost ⟨[], [(1, 0)], []⟩ (some (-5)) 1 1 false true
      TType.expense 1 none ⟨2024, 1, 10⟩ "x" =
      CreateOutcome.created (transactionsViewCreate ⟨[], [(1, 0)], []⟩ 1 (-5) 1
        false true TType.expense 1 none ⟨2024, 1, 10⟩ "x") ∧
    (transactionsViewCreate ⟨[], [(1, 0)], []⟩ 1 (-5) 1 false true TType.expense
      1 none ⟨2024, 1, 10⟩ "x").entries.length =
      (LedgerState.entries ⟨[], [(1, 0)], []⟩).length +
        (createParcels (-5) 1 false true ⟨2024, 1, 10⟩).length :=
  ⟨by norm_num,
    unparsable_amount_rejected_nonpositive_accepted ⟨[], [(1, 0)], []⟩ (-5)
      (by norm_num) 1 1 false true TType.expense 1 none ⟨2024, 1, 10⟩ "x"⟩

/-! ### Account-table delta algebra -/

theorem applyDelta_applyDelta (δ ε : ℕ → ℚ) (accounts : Accounts) :
    applyDelta δ (applyDelta ε accounts) =
      applyDelta (fun a => ε a + δ a) accounts := by
  simp only [applyDelta, List.map_map]
  apply List.map_congr_left
  intro p _
  simp [add_assoc]

theorem applyDelta_zero (accounts : Accounts) :
    applyDelta (fun _ => 0) accounts = accounts := by
  simp only [applyDelta, add_zero]
  exact List.map_id' accounts

theorem applyDelta_congr (δ ε : ℕ → ℚ) (accounts : Accounts)
    (h : ∀ a, δ a = ε a) : applyDelta δ accounts = applyDelta ε accounts := by
  have : δ = ε := funext h
  rw [this]

theorem bumpAccount_eq_applyDelta (accounts : Accounts) (a : ℕ) (q : ℚ) :
    bumpAccount accounts a q =
      applyDelta (fun x => if x = a then q else 0) accounts := by
  simp only [bumpAccount, applyDelta]
  apply List.map_congr_left
  intro p _
  by_cases h : p.1 = a
  · simp [h]
  · simp [h]

theorem foldl_bumpAccount {α : Type} (key : α → ℕ) (val : α → ℚ)
    (l : List α) (accounts : Accounts) :
    l.foldl (fun b x => bumpAccount b (key x) (val x)) accounts =
      applyDelta (fun a => ((l.filter (fun x => key x = a)).map val).sum)
        accounts := by
  induction l generalizing accounts with
  | nil => simp [applyDelta_zero]
  | cons x xs ih =>
      simp only [List.foldl_cons]
      rw [ih, bumpAccount_eq_applyDelta, applyDelta_applyDelta]
      apply applyDelta_congr
      intro a
      by_cases h : key x = a
      · simp [List.filter_cons, h]
      · simp [List.filter_cons, h]
        exact fun h2 => absurd h2.symm h

/-! ### Per-account sums and `account_totals` -/

theorem sumFor_cons (e : Entry) (l : List Entry) (a : ℕ) :
    sumFor (e :: l) a = (if e.account = a then e.amount else 0) + sumFor l a := by
  by_cases h : e.account = a
  · simp [sumFor, List.filter_cons, h]
  · simp [sumFor, List.filter_cons, h]

theorem sumFor_map_preserving (f : Entry → Entry) (l : List Entry) (a : ℕ)
    (hacc : ∀ e, (f e).account = e.account)
    (hamt : ∀ e, (f e).amount = e.amount) :
    sumFor (l.map f) a = sumFor l a := by
  induction l with
  | nil => rfl
  | cons x xs ih =>
      simp only [List.map_cons, sumFor_cons, ih, hacc, hamt]

theorem addTotal_filter_sum (acc : List (ℕ × ℚ)) (a : ℕ) (q : ℚ) (x : ℕ) :
    (((addTotal acc a q).filter (fun p => p.1 = x)).map Prod.snd).sum =
      ((acc.filter (fun p => p.1 = x)).map Prod.snd).sum +
        (if a = x then q else 0) := by
  induction acc with
  | nil =>
      by_cases h : a = x
      · simp [addTotal, List.filter_cons, h]
      · simp [addTotal, List.filter_cons, h]
  | cons p rest ih =>
      simp only [addTotal]
      by_cases hpa : p.1 = a
      · rw [if_pos hpa]
        by_cases hpx : p.1 = x
        · have hax : a = x := by rw [← hpa, hpx]
          simp [List.filter_cons, hpx, hax]
          ring
        · have hax : ¬a = x := fun hh => hpx (by rw [hpa, hh])
          simp [List.filter_cons, hpx, hax]
      · rw [if_neg hpa]
        by_cases hpx : p.1 = x
        · simp [List.filter_cons, hpx, ih]
          ring
        · simp [List.filter_cons, hpx, ih]

theorem foldl_addTotal_filter_sum (l : List Entry) (acc : List (ℕ × ℚ)) (x : ℕ) :
    (((l.foldl (fun acc e => addTotal acc e.account e.amount) acc).filter
        (fun p => p.1 = x)).map Prod.snd).sum =
      ((acc.filter (fun p => p.1 = x)).map Prod.snd).sum + sumFor l x := by
  induction l generalizing acc with
  | nil => simp [sumFor]
  | cons e rest ih =>
      simp only [List.foldl_cons]
      rw [ih, addTotal_filter_sum, sumFor_cons]
      ring

theorem accountTotals_filter_sum (l : List Entry) (x : ℕ) :
    (((accountTotals l).filter (fun p => p.1 = x)).map Prod.snd).sum =
      sumFor l x := by
  have h := foldl_addTotal_filter_sum l [] x
  simpa [accountTotals] using h

theorem addTotal_ne_nil (acc : List (ℕ × ℚ)) (a : ℕ) (q : ℚ) :
    addTotal acc a q ≠ [] := by
  cases acc with
  | nil => simp [addTotal]
  | cons p rest =>
      simp only [addTotal]
      by_cases h : p.1 = a
      · simp [h]
      · simp [h]

theorem foldl_addTotal_ne_nil (l : List Entry) (acc : List (ℕ × ℚ))
    (h : acc ≠ []) :
    l.foldl (fun acc e => addTotal acc e.account e.amount) acc ≠ [] := by
  induction l generalizing acc with
  | nil => exact h
  | cons e rest ih =>
      simp only [List.foldl_cons]
      exact ih _ (addTotal_ne_nil acc e.account e.amount)

theorem accountTotals_ne_nil (l : List Entry) (h : l ≠ []) :
    accountTotals l ≠ [] := by
  cases l with
  | nil => exact absurd rfl h
  | cons e rest =>
      simp only [accountTotals, List.foldl_cons]
      exact foldl_addTotal_ne_nil rest _ (addTotal_ne_nil [] e.account e.amount)

theorem sum_map_mul_div (c T : ℚ) (l : List (ℕ × ℚ)) :
    (l.map (fun p => c * (p.2 / T))).sum = c * ((l.map Prod.snd).sum / T) := by
  induction l with
  | nil => simp
  | cons p rest ih =>
      simp only [List.map_cons, List.sum_cons, ih]
      ring

theorem sum_map_neg_amount (l : List Entry) :
    (l.map (fun e => -e.amount)).sum = -((l.map Entry.amount).sum) := by
  induction l with
  | nil => simp
  | cons e rest ih =>
      simp only [List.map_cons, List.sum_cons, ih]
      ring

/-! ### Row lookup and the save loop of the settlement views -/

theorem find_by_id (l : List Entry) (e : Entry)
    (hnd : (l.map Entry.id).Nodup) (he : e ∈ l) :
    l.find? (fun x => x.id = e.id) = some e := by
  induction l with
  | nil => cases he
  | cons a rest ih =>
      simp only [List.map_cons, List.nodup_cons] at hnd
      rcases List.mem_cons.mp he with rfl | hmem
      · simp [List.find?_cons]
      · have hne : ¬a.id = e.id := by
          intro hh
          exact hnd.1 (hh ▸ (List.mem_map.mpr ⟨e, hmem, rfl⟩))
        rw [List.find?_cons]
        have hdec : decide (a.id = e.id) = false := by simp [hne]
        rw [hdec]
        exact ih hnd.2 hmem

theorem mem_ids_filter_iff (l : List Entry) (p : Entry → Bool) (x : Entry)
    (hnd : (l.map Entry.id).Nodup) (hx : x ∈ l) :
    (x.id ∈ (l.filter p).map Entry.id) ↔ p x = true := by
  constructor
  · intro h
    obtain ⟨e, hef, heid⟩ := List.mem_map.mp h
    obtain ⟨hel, hpe⟩ := List.mem_filter.mp hef
    have : e = x := List.inj_on_of_nodup_map hnd hel hx heid
    rwa [this] at hpe
  · intro h
    exact List.mem_map.mpr ⟨x, List.mem_filter.mpr ⟨hx, h⟩, rfl⟩

theorem save_balance_flip (accounts : Accounts) (e : Entry) (b : Bool)
    (hp : e.is_paid = !b) :
    transaction_post_save
        (transaction_pre_save accounts e { e with is_paid := b })
        { e with is_paid := b } =
      (if b then update_account_balance accounts e.account e.amount e.type true
        else revert_account_balance accounts e.account e.amount e.type true) := by
  cases b with
  | true =>
      simp only [Bool.not_true] at hp
      simp [transaction_pre_save, transaction_post_save, hp]
  | false =>
      simp only [Bool.not_false] at hp
      simp [transaction_pre_save, transaction_post_save, hp,
        update_account_balance, revert_account_balance]

theorem dbSave_flip (st : LedgerState) (e : Entry) (b : Bool)
    (hnd : (st.entries.map Entry.id).Nodup) (he : e ∈ st.entries) :
    dbSave st { e with is_paid := b } =
      { entries := st.entries.map (fun x =>
          if x.id = e.id then { e with is_paid := b } else x),
        accounts := transaction_post_save
          (transaction_pre_save st.accounts e { e with is_paid := b })
          { e with is_paid := b },
        refunds := st.refunds } := by
  have hfind : st.entries.find? (fun x => x.id = Entry.id { e with is_paid := b }) =
      some e := find_by_id st.entries e hnd he
  simp only [dbSave, hfind]

theorem foldl_dbSave_flip (b : Bool) (rest : List Entry) :
    ∀ (st : LedgerState),
      (st.entries.map Entry.id).Nodup →
      (∀ e ∈ rest, e ∈ st.entries) →
      ((rest.map Entry.id).Nodup) →
      (∀ e ∈ rest, e.is_paid = !b) →
      rest.foldl (fun s t => dbSave s { t with is_paid := b }) st =
        { entries := st.entries.map (fun x =>
            if x.id ∈ rest.map Entry.id then { x with is_paid := b } else x),
          accounts := rest.foldl (fun acc t =>
            if b then update_account_balance acc t.account t.amount t.type true
            else revert_account_balance acc t.account t.amount t.type true)
            st.accounts,
          refunds := st.refunds } := by
  induction rest with
  | nil =>
      intro st _ _ _ _
      simp only [List.foldl_nil, List.map_nil, List.not_mem_nil, if_false]
      rw [List.map_id']
  | cons t rest ih =>
      intro st hnd hsub hndr hpaid
      have htmem : t ∈ st.entries := hsub t (List.mem_cons_self t rest)
      have hndr' : t.id ∉ rest.map Entry.id ∧ (rest.map Entry.id).Nodup := by
        simpa [List.nodup_cons] using hndr
      simp only [List.foldl_cons]
      rw [dbSave_flip st t b hnd htmem]
      have hidmap : (st.entries.map (fun x =>
          if x.id = t.id then { t with is_paid := b } else x)).map Entry.id =
          st.entries.map Entry.id := by
        rw [List.map_map]
        apply List.map_congr_left
        intro x _
        by_cases hx : x.id = t.id
        · simp [hx]
        · simp [hx]
      have h1' : ((st.entries.map (fun x =>
          if x.id = t.id then { t with is_paid := b } else x)).map Entry.id).Nodup := by
        rw [hidmap]; exact hnd
      have h2' : ∀ e ∈ rest, e ∈ st.entries.map (fun x =>
          if x.id = t.id then { t with is_paid := b } else x) := by
        intro e he
        have hemem : e ∈ st.entries := hsub e (List.mem_cons_of_mem t he)
        have hne : ¬e.id = t.id := by
          intro hh
          exact hndr'.1 (hh ▸ List.mem_map.mpr ⟨e, he, rfl⟩)
        exact List.mem_map.mpr ⟨e, hemem, by rw [if_neg hne]⟩
      have h4' : ∀ e ∈ rest, e.is_paid = !b :=
        fun e he => hpaid e (List.mem_cons_of_mem t he)
      rw [ih _ h1' h2' hndr'.2 h4']
      simp only [LedgerState.mk.injEq]
      refine ⟨?_, ?_, trivial⟩
      · rw [List.map_map]
        apply List.map_congr_left
        intro x hx
        simp only [Function.comp_apply]
        by_cases hid : x.id = t.id
        · have hxt : x = t := List.inj_on_of_nodup_map hnd hx htmem hid
          subst hxt
          rw [if_pos rfl]
          have : Entry.id { x with is_paid := b } = x.id := rfl
          rw [if_neg (by rw [this]; exact hndr'.1),
            if_pos (by simp [List.mem_cons])]
        · rw [if_neg hid]
          have hmemiff : (x.id ∈ (t :: rest).map Entry.id) ↔
              (x.id ∈ rest.map Entry.id) := by
            simp [List.mem_cons, hid]
          by_cases hmem : x.id ∈ rest.map Entry.id
          · rw [if_pos hmem, if_pos (hmemiff.mpr hmem)]
          · rw [if_neg hmem, if_neg (fun hh => hmem (hmemiff.mp hh))]
      · rw [save_balance_flip st.accounts t b (hpaid t (List.mem_cons_self t rest))]

theorem foldl_congr_mem {α β : Type} (l : List α) (f g : β → α → β) (acc : β)
    (h : ∀ x ∈ l, ∀ b, f b x = g b x) : l.foldl f acc = l.foldl g acc := by
  induction l generalizing acc with
  | nil => rfl
  | cons x xs ih =>
      simp only [List.foldl_cons]
      rw [h x (List.mem_cons_self x xs) acc]
      exact ih _ (fun e he b => h e (List.mem_cons_of_mem x he) b)

theorem foldl_keep {α β : Type} (l : List α) (acc : β) :
    l.foldl (fun b _ => b) acc = acc := by
  induction l with
  | nil => rfl
  | cons x xs ih => simpa using ih

theorem paySelection_subset (st : LedgerState) (card y m : ℕ) :
    ∀ e ∈ paySelection st card y m, e ∈ st.entries :=
  fun e he => (List.mem_filter.mp he).1

theorem paySelection_ids_nodup (st : LedgerState) (card y m : ℕ)
    (hnd : (st.entries.map Entry.id).Nodup) :
    ((paySelection st card y m).map Entry.id).Nodup :=
  ((List.filter_sublist st.entries).map Entry.id).nodup hnd

theorem paySelection_unpaid (st : LedgerState) (card y m : ℕ) :
    ∀ e ∈ paySelection st card y m, e.is_paid = false := by
  intro e he
  have h := (List.mem_filter.mp he).2
  simp only [Bool.and_eq_true, Bool.not_eq_true'] at h
  exact h.2

theorem paySelection_expense (st : LedgerState) (card y m : ℕ) :
    ∀ e ∈ paySelection st card y m, e.type = TType.expense := by
  intro e he
  have h := (List.mem_filter.mp he).2
  simp only [Bool.and_eq_true, matchesInvoice, decide_eq_true_eq] at h
  exact h.1.2

theorem reopenSelection_subset (st : LedgerState) (card y m : ℕ) :
    ∀ e ∈ reopenSelection st card y m, e ∈ st.entries :=
  fun e he => (List.mem_filter.mp he).1

theorem reopenSelection_ids_nodup (st : LedgerState) (card y m : ℕ)
    (hnd : (st.entries.map Entry.id).Nodup) :
    ((reopenSelection st card y m).map Entry.id).Nodup :=
  ((List.filter_sublist st.entries).map Entry.id).nodup hnd

theorem reopenSelection_paid (st : LedgerState) (card y m : ℕ) :
    ∀ e ∈ reopenSelection st card y m, e.is_paid = true := by
  intro e he
  have h := (List.mem_filter.mp he).2
  simp only [Bool.and_eq_true] at h
  exact h.2

theorem reopenSelection_expense (st : LedgerState) (card y m : ℕ) :
    ∀ e ∈ reopenSelection st card y m, e.type = TType.expense := by
  intro e he
  have h := (List.mem_filter.mp he).2
  simp only [Bool.and_eq_true, matchesInvoice, decide_eq_true_eq] at h
  exact h.1.2

theorem settle_fold_accounts (S : List Entry) (accounts : Accounts)
    (hexp : ∀ e ∈ S, e.type = TType.expense) :
    S.foldl (fun acc t =>
        if true then update_account_balance acc t.account t.amount t.type true
        else revert_account_balance acc t.account t.amount t.type true) accounts =
      applyDelta (fun a => -(sumFor S a)) accounts := by
  rw [foldl_congr_mem S _ (fun acc t => bumpAccount acc t.account (-t.amount)) _ ?_]
  · rw [foldl_bumpAccount Entry.account (fun e => -e.amount) S accounts]
    apply applyDelta_congr
    intro a
    rw [show (fun e => -e.amount) = (fun e : Entry => -Entry.amount e) from rfl]
    rw [sum_map_neg_amount]
    rfl
  · intro x hx b
    simp [update_account_balance, hexp x hx]

theorem unsettle_fold_accounts (S : List Entry) (accounts : Accounts)
    (hexp : ∀ e ∈ S, e.type = TType.expense) :
    S.foldl (fun acc t =>
        if false then update_account_balance acc t.account t.amount t.type true
        else revert_account_balance acc t.account t.amount t.type true) accounts =
      applyDelta (fun a => sumFor S a) accounts := by
  rw [foldl_congr_mem S _ (fun acc t => bumpAccount acc t.account t.amount) _ ?_]
  · rw [foldl_bumpAccount Entry.account Entry.amount S accounts]
    apply applyDelta_congr
    intro a
    rfl
  · intro x hx b
    simp [revert_account_balance, hexp x hx]

theorem refund_fold_accounts (AT : List (ℕ × ℚ)) (rt T : ℚ) (hT : 0 < T)
    (accounts : Accounts) :
    AT.foldl (fun acc p =>
        if 0 < T then bumpAccount acc p.1 (rt * (p.2 / T)) else acc) accounts =
      applyDelta (fun a =>
        rt * ((((AT.filter (fun p => p.1 = a)).map Prod.snd).sum) / T)) accounts := by
  rw [foldl_congr_mem AT _ (fun acc p => bumpAccount acc p.1 (rt * (p.2 / T))) _
    (fun x _ b => by rw [if_pos hT])]
  rw [foldl_bumpAccount Prod.fst (fun p => rt * (p.2 / T)) AT accounts]
  apply applyDelta_congr
  intro a
  exact sum_map_mul_div rt T _

theorem refund_fold_skip (AT : List (ℕ × ℚ)) (rt T : ℚ) (hT : ¬0 < T)
    (accounts : Accounts) :
    AT.foldl (fun acc p =>
        if 0 < T then bumpAccount acc p.1 (rt * (p.2 / T)) else acc) accounts =
      accounts := by
  rw [foldl_congr_mem AT _ (fun b _ => b) _ (fun x _ b => by rw [if_neg hT])]
  exact foldl_keep AT accounts

theorem payInvoice_eq (st : LedgerState) (card y m : ℕ)
    (hnd : (st.entries.map Entry.id).Nodup)
    (hne : paySelection st card y m ≠ []) :
    payInvoice st card y m =
      ⟨{ entries := st.entries.map (fun x =>
           if x.id ∈ (paySelection st card y m).map Entry.id
           then { x with is_paid := true } else x),
         accounts := applyDelta (fun a =>
           -(sumFor (paySelection st card y m) a) +
             (if 0 < refundsTotalFor st.refunds card y m ∧
                 0 < ((paySelection st card y m).map Entry.amount).sum
              then refundsTotalFor st.refunds card y m *
                (sumFor (paySelection st card y m) a /
                  ((paySelection st card y m).map Entry.amount).sum)
              else 0)) st.accounts,
         refunds := st.refunds }, InvoiceNotice.paid⟩ := by
  have hSne : st.entries.filter (fun e => matchesInvoice card y m e && !e.is_paid) ≠ [] := by
    simpa [paySelection] using hne
  have hsub := paySelection_subset st card y m
  have hndS := paySelection_ids_nodup st card y m hnd
  have hpaidS : ∀ e ∈ paySelection st card y m, e.is_paid = !true := by
    simpa using paySelection_unpaid st card y m
  have hexp := paySelection_expense st card y m
  simp only [paySelection] at hsub hndS hpaidS hexp hne ⊢
  simp only [payInvoice]
  rw [if_neg (by simp [List.isEmpty_iff, hSne])]
  rw [foldl_dbSave_flip true _ st hnd hsub hndS hpaidS]
  have hATne : ¬(accountTotals (st.entries.filter
      (fun e => matchesInvoice card y m e && !e.is_paid))).isEmpty = true := by
    simp only [List.isEmpty_iff]
    exact accountTotals_ne_nil _ hSne
  by_cases hrt : 0 < refundsTotalFor st.refunds card y m
  · by_cases hT : 0 < ((st.entries.filter
        (fun e => matchesInvoice card y m e && !e.is_paid)).map Entry.amount).sum
    · rw [if_pos ⟨hrt, hATne⟩]
      rw [refund_fold_accounts _ _ _ hT]
      rw [settle_fold_accounts _ _ hexp, applyDelta_applyDelta]
      simp only [InvoiceResult.mk.injEq, LedgerState.mk.injEq]
      refine ⟨⟨trivial, ?_, trivial⟩, trivial⟩
      apply applyDelta_congr
      intro a
      rw [accountTotals_filter_sum, if_pos ⟨hrt, hT⟩]
    · rw [if_pos ⟨hrt, hATne⟩]
      rw [refund_fold_skip _ _ _ hT]
      rw [settle_fold_accounts _ _ hexp]
      simp only [InvoiceResult.mk.injEq, LedgerState.mk.injEq]
      refine ⟨⟨trivial, ?_, trivial⟩, trivial⟩
      apply applyDelta_congr
      intro a
      rw [if_neg (fun hh => hT hh.2)]
      ring
  · rw [if_neg (fun hh => hrt hh.1)]
    rw [settle_fold_accounts _ _ hexp]
    simp only [InvoiceResult.mk.injEq, LedgerState.mk.injEq]
    refine ⟨⟨trivial, ?_, trivial⟩, trivial⟩
    apply applyDelta_congr
    intro a
    rw [if_neg (fun hh => hrt hh.1)]
    ring

theorem reopen_refund_fold_accounts (AT : List (ℕ × ℚ)) (rt T : ℚ) (hT : 0 < T)
    (accounts : Accounts) :
    AT.foldl (fun acc p =>
        if 0 < T then bumpAccount acc p.1 (-(rt * (p.2 / T))) else acc) accounts =
      applyDelta (fun a =>
        -(rt * ((((AT.filter (fun p => p.1 = a)).map Prod.snd).sum) / T))) accounts := by
  rw [foldl_congr_mem AT _ (fun acc p => bumpAccount acc p.1 (-(rt * (p.2 / T)))) _
    (fun x _ b => by rw [if_pos hT])]
  rw [foldl_bumpAccount Prod.fst (fun p => -(rt * (p.2 / T))) AT accounts]
  apply applyDelta_congr
  intro a
  have h1 : ((AT.filter (fun p => p.1 = a)).map (fun p => -(rt * (p.2 / T)))).sum =
      -(((AT.filter (fun p => p.1 = a)).map (fun p => rt * (p.2 / T))).sum) := by
    induction (AT.filter (fun p => p.1 = a)) with
    | nil => simp
    | cons q rest ih =>
        simp only [List.map_cons, List.sum_cons, ih]
        ring
  rw [h1, sum_map_mul_div rt T]

theorem reopen_refund_fold_skip (AT : List (ℕ × ℚ)) (rt T : ℚ) (hT : ¬0 < T)
    (accounts : Accounts) :
    AT.foldl (fun acc p =>
        if 0 < T then bumpAccount acc p.1 (-(rt * (p.2 / T))) else acc) accounts =
      accounts := by
  rw [foldl_congr_mem AT _ (fun b _ => b) _ (fun x _ b => by rw [if_neg hT])]
  exact foldl_keep AT accounts

theorem reopenInvoice_eq (st : LedgerState) (card y m : ℕ)
    (hnd : (st.entries.map Entry.id).Nodup)
    (hne : reopenSelection st card y m ≠ []) :
    reopenInvoice st card y m =
      ⟨{ entries := st.entries.map (fun x =>
           if x.id ∈ (reopenSelection st card y m).map Entry.id
           then { x with is_paid := false } else x),
         accounts := applyDelta (fun a =>
           sumFor (reopenSelection st card y m) a +
             (if 0 < refundsTotalFor st.refunds card y m ∧
                 0 < ((reopenSelection st card y m).map Entry.amount).sum
              then -(refundsTotalFor st.refunds card y m *
                (sumFor (reopenSelection st card y m) a /
                  ((reopenSelection st card y m).map Entry.amount).sum))
              else 0)) st.accounts,
         refunds := st.refunds }, InvoiceNotice.reopened⟩ := by
  have hSne : st.entries.filter (fun e => matchesInvoice card y m e && e.is_paid) ≠ [] := by
    simpa [reopenSelection] using hne
  have hsub := reopenSelection_subset st card y m
  have hndS := reopenSelection_ids_nodup st card y m hnd
  have hpaidS : ∀ e ∈ reopenSelection st card y m, e.is_paid = !false := by
    simpa using reopenSelection_paid st card y m
  have hexp := reopenSelection_expense st card y m
  simp only [reopenSelection] at hsub hndS hpaidS hexp hne ⊢
  simp only [reopenInvoice]
  rw [if_neg (by simp [List.isEmpty_iff, hSne])]
  rw [foldl_dbSave_flip false _ st hnd hsub hndS hpaidS]
  have hATne : ¬(accountTotals (st.entries.filter
      (fun e => matchesInvoice card y m e && e.is_paid))).isEmpty = true := by
    simp only [List.isEmpty_iff]
    exact accountTotals_ne_nil _ hSne
  by_cases hrt : 0 < refundsTotalFor st.refunds card y m
  · by_cases hT : 0 < ((st.entries.filter
        (fun e => matchesInvoice card y m e && e.is_paid)).map Entry.amount).sum
    · rw [if_pos ⟨hrt, hATne⟩]
      rw [reopen_refund_fold_accounts _ _ _ hT]
      rw [unsettle_fold_accounts _ _ hexp, applyDelta_applyDelta]
      simp only [InvoiceResult.mk.injEq, LedgerState.mk.injEq]
      refine ⟨⟨trivial, ?_, trivial⟩, trivial⟩
      apply applyDelta_congr
      intro a
      rw [accountTotals_filter_sum, if_pos ⟨hrt, hT⟩]
    · rw [if_pos ⟨hrt, hATne⟩]
      rw [reopen_refund_fold_skip _ _ _ hT]
      rw [unsettle_fold_accounts _ _ hexp]
      simp only [InvoiceResult.mk.injEq, LedgerState.mk.injEq]
      refine ⟨⟨trivial, ?_, trivial⟩, trivial⟩
      apply applyDelta_congr
      intro a
      rw [if_neg (fun hh => hT hh.2)]
      ring
  · rw [if_neg (fun hh => hrt hh.1)]
    rw [unsettle_fold_accounts _ _ hexp]
    simp only [InvoiceResult.mk.injEq, LedgerState.mk.injEq]
    refine ⟨⟨trivial, ?_, trivial⟩, trivial⟩
    apply applyDelta_congr
    intro a
    rw [if_neg (fun hh => hrt hh.1)]
    ring

/-- C6: when paying an invoice period that has refunds, with a non-empty
selection of unsettled expense entries (of positive amounts), every
account's balance change is the settlement debit plus
`refundsTotal * (account's entry sum / transactionsTotal)` — the
proportional refund share; accounts outside the selection are
untouched (their entry sum is 0). -/
theorem pay_distributes_refunds_proportionally (st : LedgerState)
    (card y m : ℕ)
    (hnd : (st.entries.map Entry.id).Nodup)
    (hne : paySelection st card y m ≠ [])
    (hpos : ∀ e ∈ paySelection st card y m, 0 < e.amount)
    (hrt : 0 < refundsTotalFor st.refunds card y m) :
    (payInvoice st card y m).state.accounts =
      applyDelta (fun a =>
        -(sumFor (paySelection st card y m) a) +
          refundsTotalFor st.refunds card y m *
            (sumFor (paySelection st card y m) a /
              ((paySelection st card y m).map Entry.amount).sum)) st.accounts := by
  have hT : 0 < ((paySelection st card y m).map Entry.amount).sum := by
    apply List.sum_pos
    · intro x hx
      obtain ⟨e, he, rfl⟩ := List.mem_map.mp hx
      exact hpos e he
    · simp only [ne_eq, List.map_eq_nil_iff]
      exact hne
  rw [payInvoice_eq st card y m hnd hne]
  dsimp only
  apply applyDelta_congr
  intro a
  rw [if_pos ⟨hrt, hT⟩]

/-- Witness for C6 at the spec's concrete scenario: entries of 300 on
account 1 and 700 on account 2, refund of 100: account 1 nets
-300 + 30 = -270 and account 2 nets -700 + 70 = -630. -/
theorem pay_distributes_refunds_proportionally_witness :
    (0 < refundsTotalFor [⟨9, 100, 2024, 5⟩] 9 2024 5) ∧
    (payInvoice ⟨[⟨1, 1, some 9, 300, TType.expense, ⟨2024, 4, 20⟩, ⟨2024, 5, 10⟩, false, "a"⟩,
        ⟨2, 2, some 9, 700, TType.expense, ⟨2024, 4, 21⟩, ⟨2024, 5, 10⟩, false, "b"⟩],
      [(1, 0), (2, 0)], [⟨9, 100, 2024, 5⟩]⟩ 9 2024 5).state.accounts =
      [(1, -270), (2, -630)] := by
  have hrt : 0 < refundsTotalFor [⟨9, 100, 2024, 5⟩] 9 2024 5 := by
    simp [refundsTotalFor]
  refine ⟨hrt, ?_⟩
  rw [pay_distributes_refunds_proportionally _ 9 2024 5 (by decide) (by decide)
    (by decide) hrt]
  simp [applyDelta, paySelection, matchesInvoice, sumFor, refundsTotalFor]
  norm_num

theorem entry_set_is_paid_self (x : Entry) (b : Bool) (h : x.is_paid = b) :
    ({ x with is_paid := b } : Entry) = x := by
  cases x
  simp only at h
  rw [h]

/-- Counterexample to C5 as stated: with an entry of the period that is
already settled before the pay (amount 100, account 1, balance -100),
PayInvoice is a no-op but ReopenInvoice unsettles that pre-settled
entry, so pay-then-reopen does not restore the pre-pay state. -/
theorem pay_then_reopen_not_restoring :
    (reopenInvoice (payInvoice ⟨[⟨1, 1, some 9, 100, TType.expense,
        ⟨2024, 4, 20⟩, ⟨2024, 5, 10⟩, true, "a"⟩], [(1, -100)], []⟩
        9 2024 5).state 9 2024 5).state ≠
      ⟨[⟨1, 1, some 9, 100, TType.expense, ⟨2024, 4, 20⟩, ⟨2024, 5, 10⟩,
        true, "a"⟩], [(1, -100)], []⟩ := by
  have hpay : payInvoice ⟨[⟨1, 1, some 9, 100, TType.expense,
      ⟨2024, 4, 20⟩, ⟨2024, 5, 10⟩, true, "a"⟩], [(1, -100)], []⟩ 9 2024 5 =
      ⟨⟨[⟨1, 1, some 9, 100, TType.expense, ⟨2024, 4, 20⟩, ⟨2024, 5, 10⟩,
        true, "a"⟩], [(1, -100)], []⟩, InvoiceNotice.noPending⟩ := by
    simp only [payInvoice]
    rw [if_pos (by decide)]
  rw [hpay]
  dsimp only
  rw [reopenInvoice_eq _ 9 2024 5 (by decide) (by decide)]
  dsimp only
  intro h
  have hent := congrArg LedgerState.entries h
  dsimp only at hent
  rw [show reopenSelection ⟨[⟨1, 1, some 9, 100, TType.expense, ⟨2024, 4, 20⟩,
      ⟨2024, 5, 10⟩, true, "a"⟩], [(1, -100)], []⟩ 9 2024 5 =
      [⟨1, 1, some 9, 100, TType.expense, ⟨2024, 4, 20⟩, ⟨2024, 5, 10⟩, true, "a"⟩]
    from by decide] at hent
  simp at hent

/-- C5 (amended): provided no invoice-period entry is settled before the
pay — every matching expense entry is unsettled — PayInvoice followed
immediately by ReopenInvoice restores every entry (including its
settled flag) and every account balance exactly. -/
theorem pay_then_reopen_restores (st : LedgerState) (card y m : ℕ)
    (hnd : (st.entries.map Entry.id).Nodup)
    (hopen : ∀ e ∈ st.entries, matchesInvoice card y m e = true → e.is_paid = false) :
    (reopenInvoice (payInvoice st card y m).state card y m).state = st := by
  by_cases hne : paySelection st card y m = []
  · -- every matching entry would be unpaid, hence in the (empty) pay
    -- selection: there are no matching entries at all, and both views
    -- report the no-pending notice without touching the state.
    have hnomatch : ∀ e ∈ st.entries, matchesInvoice card y m e = false := by
      intro e he
      cases hq : matchesInvoice card y m e
      · rfl
      · exfalso
        have hunpaid := hopen e he hq
        have hmem : e ∈ paySelection st card y m :=
          List.mem_filter.mpr ⟨he, by simp [hq, hunpaid]⟩
        rw [hne] at hmem
        cases hmem
    have hpays : payInvoice st card y m = ⟨st, InvoiceNotice.noPending⟩ := by
      have hcond : (st.entries.filter
          (fun e => matchesInvoice card y m e && !e.is_paid)).isEmpty = true := by
        simp only [List.isEmpty_iff]
        simpa [paySelection] using hne
      simp only [payInvoice]
      rw [if_pos hcond]
    have hreopens : reopenInvoice st card y m = ⟨st, InvoiceNotice.noPending⟩ := by
      have hcond : (st.entries.filter
          (fun e => matchesInvoice card y m e && e.is_paid)).isEmpty = true := by
        simp only [List.isEmpty_iff, List.filter_eq_nil_iff]
        intro e he
        simp [hnomatch e he]
      simp only [reopenInvoice]
      rw [if_pos hcond]
    rw [hpays]
    dsimp only
    rw [hreopens]
  · rw [payInvoice_eq st card y m hnd hne]
    dsimp only
    have hchar : ∀ x ∈ st.entries,
        (x.id ∈ (paySelection st card y m).map Entry.id ↔
          matchesInvoice card y m x = true) := by
      intro x hx
      have h0 := mem_ids_filter_iff st.entries
        (fun e => matchesInvoice card y m e && !e.is_paid) x hnd hx
      constructor
      · intro h
        have hq := h0.mp h
        simp only [Bool.and_eq_true] at hq
        exact hq.1
      · intro h
        apply h0.mpr
        show (matchesInvoice card y m x && !x.is_paid) = true
        rw [h, hopen x hx h]
        rfl
    -- names for the pay-result components
    set S := paySelection st card y m with hSdef
    set E1 := st.entries.map (fun x =>
      if x.id ∈ S.map Entry.id then { x with is_paid := true } else x) with hE1def
    set A1 := applyDelta (fun a =>
      -(sumFor S a) +
        (if 0 < refundsTotalFor st.refunds card y m ∧
            0 < (S.map Entry.amount).sum
          then refundsTotalFor st.refunds card y m *
            (sumFor S a / (S.map Entry.amount).sum)
          else 0)) st.accounts with hA1def
    have hE1ids : E1.map Entry.id = st.entries.map Entry.id := by
      rw [hE1def, List.map_map]
      apply List.map_congr_left
      intro x _
      simp only [Function.comp_apply]
      by_cases hx : x.id ∈ S.map Entry.id
      · rw [if_pos hx]
      · rw [if_neg hx]
    have hnd1 : (E1.map Entry.id).Nodup := by
      rw [hE1ids]
      exact hnd
    have hfilter : E1.filter (fun e => matchesInvoice card y m e && e.is_paid) =
        S.map (fun x => { x with is_paid := true }) := by
      rw [hE1def, List.filter_map]
      have hinner : st.entries.filter
          ((fun e => matchesInvoice card y m e && e.is_paid) ∘
            (fun x => if x.id ∈ S.map Entry.id
              then { x with is_paid := true } else x)) =
          st.entries.filter (fun e => matchesInvoice card y m e && !e.is_paid) := by
        apply List.filter_congr
        intro x hx
        simp only [Function.comp_apply]
        by_cases hid : x.id ∈ S.map Entry.id
        · have hmatch := (hchar x hx).mp hid
          have hup := hopen x hx hmatch
          rw [if_pos hid]
          have hflip : matchesInvoice card y m { x with is_paid := true } =
              matchesInvoice card y m x := rfl
          rw [hflip, hmatch, hup]
          rfl
        · have hmatch : matchesInvoice card y m x = false := by
            cases hq : matchesInvoice card y m x
            · rfl
            · exact absurd ((hchar x hx).mpr hq) hid
          rw [if_neg hid, hmatch]
          rfl
      rw [hinner]
      have hback : st.entries.filter
          (fun e => matchesInvoice card y m e && !e.is_paid) = S := rfl
      rw [hback]
      apply List.map_congr_left
      intro x hxS
      rw [if_pos (List.mem_map.mpr ⟨x, hxS, rfl⟩)]
    have hne2 : reopenSelection ⟨E1, A1, st.refunds⟩ card y m ≠ [] := by
      show E1.filter (fun e => matchesInvoice card y m e && e.is_paid) ≠ []
      rw [hfilter]
      simp only [ne_eq, List.map_eq_nil_iff]
      exact hne
    have hnd1' : ((LedgerState.entries ⟨E1, A1, st.refunds⟩).map Entry.id).Nodup := hnd1
    rw [reopenInvoice_eq ⟨E1, A1, st.refunds⟩ card y m hnd1' hne2]
    dsimp only
    have hsel2 : reopenSelection ⟨E1, A1, st.refunds⟩ card y m =
        S.map (fun x => { x with is_paid := true }) := hfilter
    rw [hsel2]
    have hids2 : (S.map (fun x => ({ x with is_paid := true } : Entry))).map Entry.id =
        S.map Entry.id := by
      rw [List.map_map]
      apply List.map_congr_left
      intro x _
      rfl
    have hsum2 : ∀ a, sumFor (S.map (fun x => ({ x with is_paid := true } : Entry))) a =
        sumFor S a := by
      intro a
      exact sumFor_map_preserving _ S a (fun e => rfl) (fun e => rfl)
    have hamts2 : (S.map (fun x => ({ x with is_paid := true } : Entry))).map Entry.amount =
        S.map Entry.amount := by
      rw [List.map_map]
      apply List.map_congr_left
      intro x _
      rfl
    refine Eq.trans ?_ (rfl : (⟨st.entries, st.accounts, st.refunds⟩ : LedgerState) = st)
    simp only [LedgerState.mk.injEq]
    refine ⟨?_, ?_, trivial⟩
    · -- entries restored
      rw [hids2, hE1def, List.map_map]
      have hpt : ∀ x ∈ st.entries,
          ((fun e => if e.id ∈ S.map Entry.id then { e with is_paid := false } else e) ∘
            (fun x => if x.id ∈ S.map Entry.id then { x with is_paid := true } else x)) x =
          x := by
        intro x hx
        simp only [Function.comp_apply]
        by_cases hid : x.id ∈ S.map Entry.id
        · have hmatch := (hchar x hx).mp hid
          have hup := hopen x hx hmatch
          rw [if_pos hid]
          have hid' : Entry.id { x with is_paid := true } = x.id := rfl
          rw [if_pos (by rw [hid']; exact hid)]
          exact entry_set_is_paid_self x false hup
        · rw [if_neg hid, if_neg hid]
      rw [List.map_congr_left hpt]
      exact List.map_id' st.entries
    · -- balances restored
      rw [hA1def, applyDelta_applyDelta]
      have hz : ∀ a,
          (-(sumFor S a) +
            (if 0 < refundsTotalFor st.refunds card y m ∧
                0 < (S.map Entry.amount).sum
              then refundsTotalFor st.refunds card y m *
                (sumFor S a / (S.map Entry.amount).sum)
              else 0)) +
          (sumFor (S.map (fun x => ({ x with is_paid := true } : Entry))) a +
            (if 0 < refundsTotalFor st.refunds card y m ∧
                0 < ((S.map (fun x => ({ x with is_paid := true } : Entry))).map
                  Entry.amount).sum
              then -(refundsTotalFor st.refunds card y m *
                (sumFor (S.map (fun x => ({ x with is_paid := true } : Entry))) a /
                  ((S.map (fun x => ({ x with is_paid := true } : Entry))).map
                    Entry.amount).sum))
              else 0)) = 0 := by
        intro a
        rw [hsum2, hamts2]
        by_cases hc : 0 < refundsTotalFor st.refunds card y m ∧
            0 < (S.map Entry.amount).sum
        · rw [if_pos hc, if_pos hc]
          ring
        · rw [if_neg hc, if_neg hc]
          ring
      rw [applyDelta_congr _ (fun _ => 0) st.accounts hz]
      exact applyDelta_zero st.accounts

/-- Witness for the amended C5 theorem: one unsettled card expense of
500; paying then reopening returns the exact original state. -/
theorem pay_then_reopen_restores_witness :
    ((LedgerState.entries ⟨[⟨1, 1, some 9, 500, TType.expense, ⟨2024, 4, 20⟩,
        ⟨2024, 5, 10⟩, false, "tv"⟩], [(1, 0)], []⟩).map Entry.id).Nodup ∧
    (reopenInvoice (payInvoice ⟨[⟨1, 1, some 9, 500, TType.expense,
        ⟨2024, 4, 20⟩, ⟨2024, 5, 10⟩, false, "tv"⟩], [(1, 0)], []⟩
        9 2024 5).state 9 2024 5).state =
      ⟨[⟨1, 1, some 9, 500, TType.expense, ⟨2024, 4, 20⟩, ⟨2024, 5, 10⟩,
        false, "tv"⟩], [(1, 0)], []⟩ :=
  ⟨by decide, pay_then_reopen_restores _ 9 2024 5 (by decide) (by decide)⟩
